import Mathlib

/-!
Shallow embedding of the grid-world core of `santas-little-digger`
(`src/map.rs`, `src/player.rs`, `src/main.rs`).

Machine integers of the source (`u8` bitmasks, `u32` coordinates) are
modelled as `Nat`; `f32` times and positions are modelled as `ℚ`;
Rust functions that can reach an `unwrap`/`expect` panic return `Option`.
-/

namespace Digger

/-! ### Basic spatial data (`bevy_ecs_tilemap` types used by the core) -/

structure TilePos where
  x : Nat
  y : Nat
deriving DecidableEq, Repr

structure TilemapSize where
  x : Nat
  y : Nat
deriving DecidableEq, Repr

/-- `TilePos::from_i32_pair` of `bevy_ecs_tilemap`: bounds-checked
conversion from signed coordinates. -/
def fromI32Pair (x y : Int) (size : TilemapSize) : Option TilePos :=
  if 0 ≤ x ∧ x < (size.x : Int) ∧ 0 ≤ y ∧ y < (size.y : Int) then
    some ⟨x.toNat, y.toNat⟩
  else
    none

inductive SquareDirection where
  | East
  | NorthEast
  | North
  | NorthWest
  | West
  | SouthWest
  | South
  | SouthEast
deriving DecidableEq, Repr

/-- Offset of each square-grid direction, `(dx, dy)`. -/
def dirOffset : SquareDirection → Int × Int
  | .East => (1, 0)
  | .NorthEast => (1, 1)
  | .North => (0, 1)
  | .NorthWest => (-1, 1)
  | .West => (-1, 0)
  | .SouthWest => (-1, -1)
  | .South => (0, -1)
  | .SouthEast => (1, -1)

/-- The in-bounds neighbouring position of `p` in direction `d`
(`Neighbors::get_square_neighboring_positions` keeps only positions
inside the map). -/
def squareNeighborPos (size : TilemapSize) (p : TilePos) (d : SquareDirection) : Option TilePos :=
  fromI32Pair ((p.x : Int) + (dirOffset d).1) ((p.y : Int) + (dirOffset d).2) size

/-- The four orthogonal directions (`include_diagonals = false`). -/
def orthogonalDirs : List SquareDirection :=
  [.North, .East, .South, .West]

/-- All eight directions (`include_diagonals = true`). -/
def allDirs : List SquareDirection :=
  [.North, .NorthEast, .East, .SouthEast, .South, .SouthWest, .West, .NorthWest]

/-! ### `map.rs`: tile data model -/

inductive TileTerrain where
  | Walkable
  | Diggable (level : Nat) (hardness : ℚ)
  | Impassable
deriving DecidableEq, Repr

inductive TileTexture where
  | Single (index : Nat)
  | Directional (index : Nat)
deriving DecidableEq, Repr

/-- A Bevy `Timer` in `Once` mode: `tick` accumulates (clamped at the
duration) and `finished` holds once the duration is reached. -/
structure Timer where
  elapsed : ℚ
  duration : ℚ
deriving DecidableEq, Repr

def Timer.tick (t : Timer) (delta : ℚ) : Timer :=
  { t with elapsed := min (t.elapsed + delta) t.duration }

def Timer.finished (t : Timer) : Bool :=
  t.duration ≤ t.elapsed

/-- `TileDigging::new(time)` = `Timer::from_seconds(time, TimerMode::Once)`. -/
def TileDigging.new (time : ℚ) : Timer :=
  ⟨0, time⟩

/-- One entry of the `TileInfo` registry (`TileData` in `map.rs`). -/
structure TileData where
  tile_type : TileTerrain
  tile_texture : TileTexture
deriving DecidableEq, Repr

/-- `map_bitmask_to_offset` of `map.rs`, the fixed lookup table. -/
def map_bitmask_to_offset (bitmask : Nat) : Nat :=
  match bitmask with
  | 0 => 0
  | 15 => 1
  | 1 => 2
  | 2 => 3
  | 4 => 4
  | 8 => 5
  | 3 => 6
  | 6 => 7
  | 12 => 8
  | 9 => 9
  | 10 => 10
  | 5 => 11
  | 11 => 12
  | 7 => 13
  | 14 => 14
  | 13 => 15
  | _ => 0

/-- Whether `map_bitmask_to_offset` takes its fallback arm, which prints
a diagnostic to stderr before returning 0. -/
def map_bitmask_diagnostic (bitmask : Nat) : Bool :=
  match bitmask with
  | 0 => false
  | 15 => false
  | 1 => false
  | 2 => false
  | 4 => false
  | 8 => false
  | 3 => false
  | 6 => false
  | 12 => false
  | 9 => false
  | 10 => false
  | 5 => false
  | 11 => false
  | 7 => false
  | 14 => false
  | 13 => false
  | _ => true

/-- `get_direction_bit` of `map.rs`; the diagonal arms hit a `panic!`,
modelled as `none`. -/
def get_direction_bit : SquareDirection → Option Nat
  | .North => some 1
  | .East => some 2
  | .South => some 4
  | .West => some 8
  | _ => none

/-! ### `main.rs` / `map.rs`: load-state aggregation -/

inductive LoadState where
  | NotLoaded
  | Loading
  | Loaded
  | Failed
deriving DecidableEq, Repr

/-- The loop body of `get_group_load_state`; the accumulator starts as
`Loaded` and each handle's status is the loader's answer (`none` models a
handle unknown to the loader). -/
def groupLoadLoop : LoadState → List (Option LoadState) → LoadState
  | acc, [] => acc
  | acc, h :: t =>
    match h with
    | some .Loaded => groupLoadLoop acc t
    | some .Loading => groupLoadLoop .Loading t
    | some .Failed => .Failed
    | some .NotLoaded => .NotLoaded
    | none => .NotLoaded

/-- `get_group_load_state` of `main.rs` (duplicated verbatim in `map.rs`). -/
def get_group_load_state (handles : List (Option LoadState)) : LoadState :=
  groupLoadLoop .Loaded handles

/-- The first handle status that stops the scan: `Failed`, known
`NotLoaded`, or unknown (`none`). -/
def firstBlocker : List (Option LoadState) → Option (Option LoadState)
  | [] => none
  | h :: t =>
    match h with
    | some .Loaded => firstBlocker t
    | some .Loading => firstBlocker t
    | b => some b

/-- Declarative description of the aggregate load state: the first
blocking handle decides (`Failed` for a failed handle, `NotLoaded` for an
unknown or not-loaded one); with no blocker, `Loading` if some handle is
still loading, else `Loaded`. -/
def aggregateLoadState (handles : List (Option LoadState)) : LoadState :=
  match firstBlocker handles with
  | some (some .Failed) => .Failed
  | some _ => .NotLoaded
  | none =>
    if handles.contains (some .Loading) then .Loading else .Loaded

/-! ### The ECS world as seen by the grid-world core

A live tile entity carries the components of `GameTileBundle`:
`TileType` (name string), `TileTerrain`, `TileTexture`, the resolved
`TileTextureIndex`, its `TilePos`, its `TilemapId`, a `TileVisible` flag
and an optional `TileDigging` timer.  The tile storage maps positions to
entity ids; entity ids are allocated from a counter.  The single player
has a `GridPosition` and an optional `MoveTo`. -/

structure Tile where
  ttype : String
  terrain : TileTerrain
  texture : TileTexture
  texIndex : Nat
  pos : TilePos
  tilemapId : Nat
  visible : Bool
  digging : Option Timer
deriving DecidableEq, Repr

/-- `MoveTo` of `main.rs`. -/
structure MoveTo where
  target : TilePos
  elapsed_time : ℚ
  movement_time : ℚ
deriving DecidableEq, Repr

/-- `MoveTo::new`. -/
def MoveTo.new (target : TilePos) (movement_time : ℚ) : MoveTo :=
  ⟨target, 0, movement_time⟩

structure World where
  size : TilemapSize
  storage : TilePos → Option Nat
  tiles : Nat → Option Tile
  tileInfo : String → Option TileData
  nextEntity : Nat
  playerPos : TilePos
  playerMoveTo : Option MoveTo

/-- `TileInfo::create_bundle`: look the name up in the registry and build
the tile's components (`None` when the name is missing). -/
def create_bundle (info : String → Option TileData) (name : String) (position : TilePos)
    (tilemapId : Nat) (visible : Bool) : Option Tile :=
  match info name with
  | none => none
  | some data =>
    let index := match data.tile_texture with
      | .Single ind => ind
      | .Directional ind => ind
    some
      { ttype := name
        terrain := data.tile_type
        texture := data.tile_texture
        texIndex := index
        pos := position
        tilemapId := tilemapId
        visible := visible
        digging := none }

/-! ### `map.rs`: map generation (`create_map`) -/

structure MapSettings where
  size : Nat × Nat
  tile_size : ℚ

/-- `commands.spawn(bundle)` + `tile_storage.set(&pos, entity)`: allocate
a fresh entity with the bundle for `name` and point the storage cell at
it (`None` when `create_bundle` fails, which the source `unwrap`s). -/
def spawnTile (w : World) (name : String) (position : TilePos) (visible : Bool) : Option World :=
  match create_bundle w.tileInfo name position 0 visible with
  | none => none
  | some t =>
    some
      { w with
        tiles := fun e => if e = w.nextEntity then some t else w.tiles e
        storage := fun p => if p = position then some w.nextEntity else w.storage p
        nextEntity := w.nextEntity + 1 }

/-- The positions of the `for x { for y }` generation loops, x-major. -/
def gridPositions (width height : Nat) : List TilePos :=
  (List.range width).flatMap fun x => (List.range height).map fun y => ⟨x, y⟩

/-- The `u32` range `s/2 - 1 .. s/2 + 2` of the centre loops; when
`s/2 = 0` the `u32` subtraction wraps and the range is empty. -/
def centerRange (s : Nat) : List Nat :=
  if 1 ≤ s / 2 then [s / 2 - 1, s / 2, s / 2 + 1] else []

/-- The positions of the centre 3x3 "ground" loops, x-major. -/
def centerPositions (size : Nat × Nat) : List TilePos :=
  (centerRange size.1).flatMap fun x => (centerRange size.2).map fun y => ⟨x, y⟩

/-- `create_map` of `map.rs`: fill every cell with an invisible "ice"
tile, then overwrite the centre 3x3 cells with visible "ground" tiles.
The tilemap entity gets id 0, tile entities count up from 1. -/
def create_map (settings : MapSettings) (info : String → Option TileData) : Option World := do
  let w0 : World :=
    { size := ⟨settings.size.1, settings.size.2⟩
      storage := fun _ => none
      tiles := fun _ => none
      tileInfo := info
      nextEntity := 1
      playerPos := ⟨settings.size.1 / 2, settings.size.2 / 2⟩
      playerMoveTo := none }
  let w1 ← (gridPositions settings.size.1 settings.size.2).foldlM
    (fun w p => spawnTile w "ice" p false) w0
  let w2 ← (centerPositions settings.size).foldlM
    (fun w p => spawnTile w "ground" p true) w1
  some w2

/-! ### `map.rs`: digging completion (`update_tile_digging`) -/

/-- The body of `update_tile_digging` for one entity of the digging
query: tick the timer; when finished, despawn the digging entity, spawn
the "ground" bundle at the same position and tilemap, and repoint the
storage cell (`None` models the `unwrap` on a missing "ground" entry). -/
def update_tile_digging_step (w : World) (e : Nat) (delta : ℚ) : Option World :=
  match w.tiles e with
  | none => some w
  | some t =>
    match t.digging with
    | none => some w
    | some tm =>
      let tm := tm.tick delta
      if tm.finished then
        match create_bundle w.tileInfo "ground" t.pos t.tilemapId true with
        | none => none
        | some newTile =>
          some
            { w with
              tiles := fun x =>
                if x = w.nextEntity then some newTile
                else if x = e then none
                else w.tiles x
              storage := fun p => if p = t.pos then some w.nextEntity else w.storage p
              nextEntity := w.nextEntity + 1 }
      else
        some { w with tiles := fun x => if x = e then some { t with digging := some tm } else w.tiles x }

/-! ### `map.rs`: auto-tiling (`update_tile`) -/

/-- The contribution of direction `d` to the neighbour-difference mask of
the tile of type `myType` at `pos`: nothing when the neighbouring
position is out of bounds or unoccupied (such directions are simply not
iterated), the direction bit when the stored neighbour's `TileType`
differs, and a panic (`none`) when the stored neighbour entity lacks the
`TileType` component. -/
def neighborMaskBit (w : World) (myType : String) (pos : TilePos)
    (d : SquareDirection) : Option Nat :=
  match squareNeighborPos w.size pos d with
  | none => some 0
  | some np =>
    match w.storage np with
    | none => some 0
    | some ne =>
      match w.tiles ne with
      | none => none
      | some nt =>
        match get_direction_bit d with
        | none => none
        | some bit => some (if nt.ttype = myType then 0 else bit)

/-- The `mask` accumulated by the neighbour loop of `update_tile` (the
loop adds each direction's bit at most once, so the order of summation
is immaterial). -/
def computeMask (w : World) (myType : String) (pos : TilePos) : Option Nat := do
  let n ← neighborMaskBit w myType pos .North
  let e ← neighborMaskBit w myType pos .East
  let s ← neighborMaskBit w myType pos .South
  let wb ← neighborMaskBit w myType pos .West
  some (n + e + s + wb)

/-- `update_tile` of `map.rs`: for a `Directional` tile recompute the
texture index as `start + map_bitmask_to_offset mask`; `Single` tiles
are untouched.  `none` models the `unwrap`/`expect` panics (no entity at
the position, or an entity missing components). -/
def update_tile (w : World) (pos : TilePos) : Option World :=
  match w.storage pos with
  | none => none
  | some e =>
    match w.tiles e with
    | none => none
    | some tile =>
      match tile.texture with
      | .Single _ => some w
      | .Directional start =>
        match computeMask w tile.ttype pos with
        | none => none
        | some mask =>
          some
            { w with
              tiles := fun x =>
                if x = e then some { tile with texIndex := start + map_bitmask_to_offset mask }
                else w.tiles x }

/-- Pure value of direction `d`'s contribution to the mask of
`update_tile` when every stored neighbour entity is live: an absent or
unoccupied neighbouring cell contributes 0, an occupied one contributes
the direction bit iff its type differs. -/
def codeBit (w : World) (myType : String) (pos : TilePos) (d : SquareDirection) : Nat :=
  match squareNeighborPos w.size pos d with
  | none => 0
  | some np =>
    match w.storage np with
    | none => 0
    | some ne =>
      match w.tiles ne with
      | none => 0
      | some nt =>
        if nt.ttype = myType then 0 else (get_direction_bit d).getD 0

/-- Pure value of the mask of `update_tile` when every stored neighbour
entity is live. -/
def codeNeighborMask (w : World) (myType : String) (pos : TilePos) : Nat :=
  (orthogonalDirs.map (codeBit w myType pos)).sum

/-- Modelled from the spec: the claimed mask rule sets a direction's bit
whenever the neighbour tile at that direction is absent or has a
different `TileType` (so absent neighbours count as different). -/
def specNeighborMask (w : World) (myType : String) (pos : TilePos) : Nat :=
  (orthogonalDirs.map fun d =>
    match squareNeighborPos w.size pos d with
    | none => (get_direction_bit d).getD 0
    | some np =>
      match w.storage np with
      | none => (get_direction_bit d).getD 0
      | some ne =>
        match w.tiles ne with
        | none => (get_direction_bit d).getD 0
        | some nt =>
          if nt.ttype = myType then 0 else (get_direction_bit d).getD 0).sum

/-! ### `map.rs`: visibility propagation (`update_visibility`) -/

/-- The neighbour loop of `update_visibility`: set every (in-bounds,
diagonal included) neighbour's `TileVisible` to `vis`; `none` models the
`unwrap` panics on an unoccupied cell or a dead entity. -/
def reveal_fold (size : TilemapSize) (pos : TilePos) (vis : Bool) :
    List SquareDirection → World → Option World
  | [], acc => some acc
  | d :: ds, acc =>
    match squareNeighborPos size pos d with
    | none => reveal_fold size pos vis ds acc
    | some np =>
      match acc.storage np with
      | none => none
      | some ne =>
        match acc.tiles ne with
        | none => none
        | some nt =>
          reveal_fold size pos vis ds
            { acc with tiles := fun x => if x = ne then some { nt with visible := vis } else acc.tiles x }

/-- The body of `update_visibility` for one entity `e` of the
changed-terrain query: when the tile is visible and `Walkable`, copy its
visibility to all eight neighbours. -/
def update_visibility_step (w : World) (e : Nat) : Option World :=
  match w.tiles e with
  | none => some w
  | some t =>
    if t.visible = true ∧ t.terrain = TileTerrain.Walkable then
      reveal_fold w.size t.pos t.visible allDirs w
    else
      some w

/-! ### `player.rs`: movement requests (`move_player`) -/

/-- The four movement intents; `move_player` maps key input to one of
these (or none, `IVec2::ZERO`). -/
inductive MoveDir where
  | east
  | south
  | west
  | north
deriving DecidableEq, Repr

/-- The `move_target` vector assigned for each pressed direction. -/
def dirVec : MoveDir → Int × Int
  | .east => (1, 0)
  | .south => (0, -1)
  | .west => (-1, 0)
  | .north => (0, 1)

/-- `move_player` of `player.rs` for the single player.  A player that
already has a `MoveTo` is filtered out of the query (`Without<MoveTo>`),
so the request is a no-op; an out-of-bounds target (`from_i32_pair`
returns `None`) is a no-op; an `Impassable` target returns before any
insertion.  A `Walkable` target starts a `MoveTo` of duration `0.5`; a
`Diggable` target attaches `TileDigging::new(0.5 * (1 + hardness))` to
the tile and starts a `MoveTo` of the same duration.  `none` models the
`expect` panics on a missing tile entity or component. -/
def move_player (w : World) (input : Option MoveDir) : Option World :=
  match w.playerMoveTo with
  | some _ => some w
  | none =>
    match input with
    | none => some w
    | some dir =>
      let v := dirVec dir
      match fromI32Pair ((w.playerPos.x : Int) + v.1) ((w.playerPos.y : Int) + v.2) w.size with
      | none => some w
      | some newPos =>
        match w.storage newPos with
        | none => none
        | some te =>
          match w.tiles te with
          | none => none
          | some tile =>
            match tile.terrain with
            | .Walkable =>
              some { w with playerMoveTo := some (MoveTo.new newPos (1/2)) }
            | .Diggable _ hardness =>
              let time := 1/2 * (1 + hardness)
              some
                { w with
                  tiles := fun x =>
                    if x = te then some { tile with digging := some (TileDigging.new time) }
                    else w.tiles x
                  playerMoveTo := some (MoveTo.new newPos time) }
            | .Impassable => some w

/-! ### `main.rs`: movement interpolation (`animate_moveto`) -/

/-- An actor as seen by `animate_moveto`: rendered translation,
`GridPosition` and optional `MoveTo`. -/
structure Actor where
  transform : ℚ × ℚ
  gridPos : TilePos
  moveTo : Option MoveTo
deriving DecidableEq, Repr

/-- `TilePos::center_in_world` for a square map: the cell's world-space
centre. -/
def center_in_world (p : TilePos) (gridSize : ℚ × ℚ) : ℚ × ℚ :=
  ((p.x : ℚ) * gridSize.1, (p.y : ℚ) * gridSize.2)

/-- `Vec2::lerp`. -/
def lerp2 (a b : ℚ × ℚ) (t : ℚ) : ℚ × ℚ :=
  (a.1 + (b.1 - a.1) * t, a.2 + (b.2 - a.2) * t)

/-- The body of `animate_moveto` for one actor of the `MoveTo` query:
accumulate the delta; on reaching the duration commit the grid position,
snap to the target centre and drop the `MoveTo`; otherwise interpolate
between the current (source) cell centre and the target centre. -/
def animate_moveto_step (gridSize : ℚ × ℚ) (delta : ℚ) (a : Actor) : Actor :=
  match a.moveTo with
  | none => a
  | some m =>
    let m := { m with elapsed_time := m.elapsed_time + delta }
    if m.movement_time ≤ m.elapsed_time then
      { transform := center_in_world m.target gridSize
        gridPos := m.target
        moveTo := none }
    else
      { a with
        transform := lerp2 (center_in_world a.gridPos gridSize)
          (center_in_world m.target gridSize) (m.elapsed_time / m.movement_time)
        moveTo := some m }

/-! ### The tile-store invariant -/

def inBounds (size : TilemapSize) (p : TilePos) : Prop :=
  p.x < size.x ∧ p.y < size.y

/-- The tile-store invariant: every in-bounds cell is occupied, every
stored entity is a live tile sitting at the cell that stores it, and
every entity id at or above the allocation counter is dead. -/
structure StoreInv (w : World) : Prop where
  occupied : ∀ p, inBounds w.size p → (w.storage p).isSome
  consistent : ∀ p e, w.storage p = some e → ∃ t, w.tiles e = some t ∧ t.pos = p
  fresh : ∀ e, w.nextEntity ≤ e → w.tiles e = none

/-! ### Concrete worlds and registries used to instantiate the theorems -/

/-- A small tile registry: a diggable "ice" definition and a walkable
"ground" definition. -/
def infoC : String → Option TileData := fun n =>
  if n = "ice" then some ⟨.Diggable 1 1, .Directional 0⟩
  else if n = "ground" then some ⟨.Walkable, .Single 16⟩
  else none

/-- A 1x1 world holding a single "ice" tile with a directional texture
based at index 3 (no cell has any neighbour). -/
def oneTileWorld : World :=
  { size := ⟨1, 1⟩
    storage := fun p => if p = ⟨0, 0⟩ then some 1 else none
    tiles := fun e =>
      if e = 1 then
        some ⟨"ice", .Diggable 1 1, .Directional 3, 3, ⟨0, 0⟩, 0, false, none⟩
      else none
    tileInfo := infoC
    nextEntity := 2
    playerPos := ⟨0, 0⟩
    playerMoveTo := none }

/-- A 2x1 world: the idle player stands on walkable ground at (0,0) and
the cell (1,0) holds an "ice" tile with `Diggable` terrain of hardness 1. -/
def digWorld : World :=
  { size := ⟨2, 1⟩
    storage := fun p =>
      if p = ⟨0, 0⟩ then some 1 else if p = ⟨1, 0⟩ then some 2 else none
    tiles := fun e =>
      if e = 1 then some ⟨"ground", .Walkable, .Single 16, 16, ⟨0, 0⟩, 0, true, none⟩
      else if e = 2 then some ⟨"ice", .Diggable 1 1, .Directional 0, 0, ⟨1, 0⟩, 0, false, none⟩
      else none
    tileInfo := infoC
    nextEntity := 3
    playerPos := ⟨0, 0⟩
    playerMoveTo := none }

/-- `digWorld` with the (1,0) tile `Impassable` instead. -/
def wallWorld : World :=
  { digWorld with
    tiles := fun e =>
      if e = 1 then some ⟨"ground", .Walkable, .Single 16, 16, ⟨0, 0⟩, 0, true, none⟩
      else if e = 2 then some ⟨"rock", .Impassable, .Single 2, 2, ⟨1, 0⟩, 0, false, none⟩
      else none }

/-- `digWorld` with the player already moving. -/
def movingWorld : World :=
  { digWorld with playerMoveTo := some (MoveTo.new ⟨1, 0⟩ (1/2)) }

/-- `digWorld` with a digging timer of duration 1 (hardness 1) already
attached to the tile at (1,0). -/
def diggingWorld : World :=
  { digWorld with
    tiles := fun e =>
      if e = 1 then some ⟨"ground", .Walkable, .Single 16, 16, ⟨0, 0⟩, 0, true, none⟩
      else if e = 2 then
        some ⟨"ice", .Diggable 1 1, .Directional 0, 0, ⟨1, 0⟩, 0, false, some ⟨0, 1⟩⟩
      else none }

/-- A 5x5 world of walkable ground tiles, entity `1 + x + 5 * y` at cell
(x, y); only the centre tile (2,2) is visible. -/
def visWorld : World :=
  { size := ⟨5, 5⟩
    storage := fun p => if p.x < 5 ∧ p.y < 5 then some (1 + p.x + 5 * p.y) else none
    tiles := fun e =>
      if 1 ≤ e ∧ e ≤ 25 then
        some ⟨"ground", .Walkable, .Single 16, 16, ⟨(e - 1) % 5, (e - 1) / 5⟩, 0,
          e = 13, none⟩
      else none
    tileInfo := infoC
    nextEntity := 26
    playerPos := ⟨2, 2⟩
    playerMoveTo := none }

/-- The actor of the movement example: standing at (5,5), moving to
(6,5) in 0.5 time units. -/
def actorC : Actor :=
  ⟨(80, 80), ⟨5, 5⟩, some (MoveTo.new ⟨6, 5⟩ (1/2))⟩

/-- The world generated by `create_map` with a 3x3 map. -/
def mapW : World :=
  (create_map ⟨(3, 3), 16⟩ infoC).getD oneTileWorld

/-- `diggingWorld` after 0.999 time units of digging have elapsed. -/
def diggingWorld999 : World :=
  { diggingWorld with
    tiles := fun x =>
      if x = 2 then
        some ⟨"ice", .Diggable 1 1, .Directional 0, 0, ⟨1, 0⟩, 0, false, some ⟨999/1000, 1⟩⟩
      else diggingWorld.tiles x }

/-! ## Theorems -/

set_option maxRecDepth 4000 in
/-- C1: the bitmask-to-offset translation is exactly the fixed lookup
table (0→0, 15→1, 1→2, 2→3, 4→4, 8→5, 3→6, 6→7, 12→8, 9→9, 10→10, 5→11,
11→12, 7→13, 14→14, 13→15), no two in-range masks collide with different
results, and every mask outside 0..15 (over the `u8` domain) yields the
fallback offset 0 together with the diagnostic. -/
theorem bitmask_offset_table :
    (map_bitmask_to_offset 0 = 0 ∧ map_bitmask_to_offset 15 = 1 ∧
      map_bitmask_to_offset 1 = 2 ∧ map_bitmask_to_offset 2 = 3 ∧
      map_bitmask_to_offset 4 = 4 ∧ map_bitmask_to_offset 8 = 5 ∧
      map_bitmask_to_offset 3 = 6 ∧ map_bitmask_to_offset 6 = 7 ∧
      map_bitmask_to_offset 12 = 8 ∧ map_bitmask_to_offset 9 = 9 ∧
      map_bitmask_to_offset 10 = 10 ∧ map_bitmask_to_offset 5 = 11 ∧
      map_bitmask_to_offset 11 = 12 ∧ map_bitmask_to_offset 7 = 13 ∧
      map_bitmask_to_offset 14 = 14 ∧ map_bitmask_to_offset 13 = 15) ∧
    (∀ m₁, m₁ < 16 → ∀ m₂, m₂ < 16 →
      map_bitmask_to_offset m₁ = map_bitmask_to_offset m₂ → m₁ = m₂) ∧
    (∀ m, m < 256 → 16 ≤ m →
      map_bitmask_to_offset m = 0 ∧ map_bitmask_diagnostic m = true) :=
  ⟨by decide, by decide, by decide⟩

/-- Witness for C1: the fallback at mask 20. -/
theorem bitmask_offset_table_witness :
    map_bitmask_to_offset 20 = 0 ∧ map_bitmask_diagnostic 20 = true :=
  bitmask_offset_table.2.2 20 (by decide) (by decide)

/-- The scanning loop of `get_group_load_state`, for an accumulator that
is still `Loaded` or `Loading`, computes the first-blocker semantics. -/
theorem groupLoadLoop_eq (hs : List (Option LoadState)) :
    ∀ acc, acc = LoadState.Loaded ∨ acc = LoadState.Loading →
      groupLoadLoop acc hs =
        (match firstBlocker hs with
          | some (some .Failed) => LoadState.Failed
          | some _ => LoadState.NotLoaded
          | none => if hs.contains (some .Loading) then LoadState.Loading else acc) := by
  induction hs with
  | nil => intro acc _; simp [groupLoadLoop, firstBlocker]
  | cons h t ih =>
    intro acc hacc
    match h with
    | some LoadState.Loaded =>
      simpa [groupLoadLoop, firstBlocker, List.contains_cons] using ih acc hacc
    | some LoadState.Loading =>
      have := ih LoadState.Loading (Or.inr rfl)
      simp only [groupLoadLoop, firstBlocker, this, List.contains_cons]
      cases hfb : firstBlocker t with
      | none => simp
      | some b =>
        cases b with
        | none => simp
        | some s => cases s <;> simp
    | some LoadState.Failed => simp [groupLoadLoop, firstBlocker]
    | some LoadState.NotLoaded => simp [groupLoadLoop, firstBlocker]
    | none => simp [groupLoadLoop, firstBlocker]

/-- The scanning loop yields `Loaded` iff the accumulator is `Loaded`
and every handle reports `Loaded`. -/
theorem groupLoadLoop_loaded (hs : List (Option LoadState)) :
    ∀ acc, acc = LoadState.Loaded ∨ acc = LoadState.Loading →
      (groupLoadLoop acc hs = LoadState.Loaded ↔
        acc = LoadState.Loaded ∧ ∀ x ∈ hs, x = some LoadState.Loaded) := by
  induction hs with
  | nil => intro acc _; simp [groupLoadLoop]
  | cons h t ih =>
    intro acc hacc
    match h with
    | some LoadState.Loaded =>
      simpa [groupLoadLoop] using ih acc hacc
    | some LoadState.Loading =>
      have := ih LoadState.Loading (Or.inr rfl)
      simp only [groupLoadLoop, this]
      simp
    | some LoadState.Failed => simp [groupLoadLoop]
    | some LoadState.NotLoaded => simp [groupLoadLoop]
    | none => simp [groupLoadLoop]

/-- C4 (amended): the aggregate load state is `Loaded` iff every handle
reports `Loaded`; otherwise the scan stops at the first handle that is
`Failed`, known-`NotLoaded` or unknown (returning `Failed` for a failed
handle and `NotLoaded` otherwise, so the outcome of a list holding both
a failed and an unknown handle depends on their order), and with no such
handle the result is `Loading` when some handle is still loading.  The
spec's concrete examples hold. -/
theorem get_group_load_state_spec (hs : List (Option LoadState)) :
    get_group_load_state hs = aggregateLoadState hs ∧
    (get_group_load_state hs = LoadState.Loaded ↔ ∀ x ∈ hs, x = some LoadState.Loaded) ∧
    get_group_load_state [some LoadState.Loaded, some LoadState.Loading] = LoadState.Loading ∧
    get_group_load_state [some LoadState.Loaded, some LoadState.Failed] = LoadState.Failed ∧
    get_group_load_state [some LoadState.Loaded, some LoadState.Loaded] = LoadState.Loaded := by
  refine ⟨?_, ?_, by decide, by decide, by decide⟩
  · have := groupLoadLoop_eq hs LoadState.Loaded (Or.inl rfl)
    simpa [get_group_load_state, aggregateLoadState] using this
  · have := groupLoadLoop_loaded hs LoadState.Loaded (Or.inl rfl)
    simpa [get_group_load_state] using this

/-- Witness for C4 (amended): a loaded handle followed by an unknown
one aggregates to `NotLoaded`, matching the first-blocker description. -/
theorem get_group_load_state_spec_witness :
    get_group_load_state [some LoadState.Loaded, none] =
      aggregateLoadState [some LoadState.Loaded, none] ∧
    aggregateLoadState [some LoadState.Loaded, none] = LoadState.NotLoaded :=
  ⟨(get_group_load_state_spec [some LoadState.Loaded, none]).1, by decide⟩

/-- C4 counterexample: failure does not dominate irrespective of the
other handles, and the result is not order-independent: with an unknown
handle before a failed one the aggregate is `NotLoaded`, not `Failed`,
while the reverse order gives `Failed`. -/
theorem get_group_load_state_cex :
    get_group_load_state [none, some LoadState.Failed] = LoadState.NotLoaded ∧
    LoadState.NotLoaded ≠ LoadState.Failed ∧
    get_group_load_state [some LoadState.Failed, none] = LoadState.Failed ∧
    get_group_load_state [some LoadState.Failed, none] ≠
      get_group_load_state [none, some LoadState.Failed] := by
  decide

/-- C7: per-tick movement update: the elapsed time is accumulated; once
it reaches the total duration the `GridPosition` is set to the target,
the rendered position snaps to the target cell's world-space centre and
the `MoveTo` is removed; before that the rendered position is the linear
interpolation between the source and target cell centres at fraction
elapsed/duration. -/
theorem animate_moveto_updates (gs : ℚ × ℚ) (δ : ℚ) (a : Actor) (m : MoveTo)
    (h : a.moveTo = some m) :
    (m.movement_time ≤ m.elapsed_time + δ →
      animate_moveto_step gs δ a =
        ⟨center_in_world m.target gs, m.target, none⟩) ∧
    (m.elapsed_time + δ < m.movement_time →
      animate_moveto_step gs δ a =
        { a with
          transform := lerp2 (center_in_world a.gridPos gs) (center_in_world m.target gs)
            ((m.elapsed_time + δ) / m.movement_time)
          moveTo := some { m with elapsed_time := m.elapsed_time + δ } }) := by
  constructor
  · intro hc
    simp [animate_moveto_step, h, hc]
  · intro hc
    simp [animate_moveto_step, h, not_le.mpr hc]

/-- Witness for C7: the spec's example: from (5,5) to (6,5) with duration
0.5 on a square grid of cell size 16, after elapsed 0.25 the rendered
position is the exact midpoint of the two cell centres, and after
elapsed 0.5 the grid position is (6,5) and the `MoveTo` is gone. -/
theorem animate_moveto_updates_witness :
    animate_moveto_step (16, 16) (1/4) actorC =
      { actorC with transform := (88, 80), moveTo := some ⟨⟨6, 5⟩, 1/4, 1/2⟩ } ∧
    ((88 : ℚ), (80 : ℚ)) = (((80 : ℚ) + 96) / 2, ((80 : ℚ) + 80) / 2) ∧
    animate_moveto_step (16, 16) (1/4)
        { actorC with transform := (88, 80), moveTo := some ⟨⟨6, 5⟩, 1/4, 1/2⟩ } =
      ⟨(96, 80), ⟨6, 5⟩, none⟩ := by
  refine ⟨?_, by norm_num, ?_⟩
  · have h := (animate_moveto_updates (16, 16) (1/4) actorC (MoveTo.new ⟨6, 5⟩ (1/2)) rfl).2
      (by norm_num [MoveTo.new])
    rw [h]
    simp only [actorC, MoveTo.new, lerp2, center_in_world, Actor.mk.injEq, MoveTo.mk.injEq,
      Prod.mk.injEq, Option.some.injEq]
    norm_num
  · have h := (animate_moveto_updates (16, 16) (1/4)
      { actorC with transform := (88, 80), moveTo := some ⟨⟨6, 5⟩, 1/4, 1/2⟩ }
      ⟨⟨6, 5⟩, 1/4, 1/2⟩ rfl).1 (by norm_num)
    rw [h]
    simp only [center_in_world, Actor.mk.injEq, Prod.mk.injEq]
    norm_num

/-- The Diggable branch of `move_player`: it attaches the digging timer
to the target tile and then falls through to insert a `MoveTo` with
movement duration equal to the dig duration. -/
theorem move_player_diggable_eq (w : World) (d : MoveDir) (np : TilePos) (te : Nat)
    (tile : Tile) (level : Nat) (hardness : ℚ)
    (hIdle : w.playerMoveTo = none)
    (hpos : fromI32Pair ((w.playerPos.x : Int) + (dirVec d).1)
      ((w.playerPos.y : Int) + (dirVec d).2) w.size = some np)
    (hst : w.storage np = some te)
    (ht : w.tiles te = some tile)
    (hterr : tile.terrain = .Diggable level hardness) :
    move_player w (some d) =
      some
        { w with
          tiles := fun x =>
            if x = te then some { tile with digging := some (TileDigging.new (1/2 * (1 + hardness))) }
            else w.tiles x
          playerMoveTo := some (MoveTo.new np (1/2 * (1 + hardness))) } := by
  simp [move_player, hIdle, hpos, hst, ht, hterr]

/-- C3 (amended): a movement request against an orthogonal neighbour
tile with `Diggable` terrain starts digging that tile (attaches
`TileDigging::new(0.5 * (1 + hardness))`) and, on the same tick, also
inserts a `MoveTo` toward that tile whose movement duration equals the
dig duration. -/
theorem move_player_diggable (w : World) (d : MoveDir) (np : TilePos) (te : Nat)
    (tile : Tile) (level : Nat) (hardness : ℚ)
    (hIdle : w.playerMoveTo = none)
    (hpos : fromI32Pair ((w.playerPos.x : Int) + (dirVec d).1)
      ((w.playerPos.y : Int) + (dirVec d).2) w.size = some np)
    (hst : w.storage np = some te)
    (ht : w.tiles te = some tile)
    (hterr : tile.terrain = .Diggable level hardness) :
    ∃ w', move_player w (some d) = some w' ∧
      w'.tiles te = some { tile with digging := some (TileDigging.new (1/2 * (1 + hardness))) } ∧
      w'.playerMoveTo = some (MoveTo.new np (1/2 * (1 + hardness))) := by
  refine ⟨_, move_player_diggable_eq w d np te tile level hardness hIdle hpos hst ht hterr, ?_, rfl⟩
  simp

/-- Witness for C3 (amended): in `digWorld` an eastward request against
the hardness-1 ice tile attaches a duration-1 digging timer and inserts
a duration-1 `MoveTo`. -/
theorem move_player_diggable_witness :
    Option.bind (move_player digWorld (some MoveDir.east)) (fun w => w.tiles 2) =
      some ⟨"ice", .Diggable 1 1, .Directional 0, 0, ⟨1, 0⟩, 0, false,
        some (TileDigging.new (1/2 * (1 + 1)))⟩ ∧
    Option.bind (move_player digWorld (some MoveDir.east)) (fun w => w.playerMoveTo) =
      some (MoveTo.new ⟨1, 0⟩ (1/2 * (1 + 1))) := by
  obtain ⟨w', hw, ht, hm⟩ := move_player_diggable digWorld MoveDir.east ⟨1, 0⟩ 2
    ⟨"ice", .Diggable 1 1, .Directional 0, 0, ⟨1, 0⟩, 0, false, none⟩ 1 1
    rfl rfl rfl rfl rfl
  rw [hw]
  exact ⟨by simpa using ht, by simpa using hm⟩

/-- C3 counterexample: in `digWorld` the eastward request against the
Diggable tile does create a `MoveTo` for the actor on that very tick
(duration 1 = the dig time), while also starting the dig. -/
theorem move_player_diggable_cex :
    Option.bind (move_player digWorld (some MoveDir.east)) (fun w => w.playerMoveTo) =
      some (MoveTo.new ⟨1, 0⟩ 1) ∧
    some (MoveTo.new ⟨1, 0⟩ 1) ≠ (none : Option MoveTo) ∧
    Option.bind (move_player digWorld (some MoveDir.east))
      (fun w => (w.tiles 2).bind Tile.digging) = some (TileDigging.new 1) := by
  have h := move_player_diggable_eq digWorld MoveDir.east ⟨1, 0⟩ 2
    ⟨"ice", .Diggable 1 1, .Directional 0, 0, ⟨1, 0⟩, 0, false, none⟩ 1 1
    rfl rfl rfl rfl rfl
  rw [h]
  refine ⟨by norm_num [MoveTo.new], by simp, by norm_num [TileDigging.new]⟩

/-- C5: every dig started by a movement request against a tile with
`Diggable{level, hardness}` terrain (hardness nonnegative) assigns the
tile's countdown timer the duration `0.5 * (1 + hardness)`. -/
theorem dig_duration (w : World) (d : MoveDir) (np : TilePos) (te : Nat)
    (tile : Tile) (level : Nat) (hardness : ℚ)
    (_hnn : 0 ≤ hardness)
    (hIdle : w.playerMoveTo = none)
    (hpos : fromI32Pair ((w.playerPos.x : Int) + (dirVec d).1)
      ((w.playerPos.y : Int) + (dirVec d).2) w.size = some np)
    (hst : w.storage np = some te)
    (ht : w.tiles te = some tile)
    (hterr : tile.terrain = .Diggable level hardness) :
    Option.bind (move_player w (some d)) (fun w' => (w'.tiles te).bind Tile.digging) =
      some (TileDigging.new (1/2 * (1 + hardness))) ∧
    (TileDigging.new (1/2 * (1 + hardness))).duration = 1/2 * (1 + hardness) := by
  rw [move_player_diggable_eq w d np te tile level hardness hIdle hpos hst ht hterr]
  simp [TileDigging.new]

/-- Witness for C5: the hardness-1 dig in `digWorld` gets duration
`0.5 * (1 + 1) = 1`. -/
theorem dig_duration_witness :
    Option.bind (move_player digWorld (some MoveDir.east))
      (fun w' => (w'.tiles 2).bind Tile.digging) =
      some (TileDigging.new (1/2 * (1 + 1))) ∧
    (TileDigging.new (1/2 * (1 + 1))).duration = 1 := by
  have h := dig_duration digWorld MoveDir.east ⟨1, 0⟩ 2
    ⟨"ice", .Diggable 1 1, .Directional 0, 0, ⟨1, 0⟩, 0, false, none⟩ 1 1
    (by norm_num) rfl rfl rfl rfl rfl
  exact ⟨h.1, by rw [h.2]; norm_num⟩

/-- C9: contract misuse is silently rejected with no state change: a
request while the actor is already moving, a request whose target is out
of bounds, and a request whose target tile is `Impassable` each return
the world unchanged (no `MoveTo`, no `TileDigging`, same `GridPosition`,
same tile store) and without surfacing an error. -/
theorem move_player_misuse (w : World) (d : MoveDir) :
    (∀ m, w.playerMoveTo = some m → move_player w (some d) = some w) ∧
    (w.playerMoveTo = none →
      fromI32Pair ((w.playerPos.x : Int) + (dirVec d).1)
        ((w.playerPos.y : Int) + (dirVec d).2) w.size = none →
      move_player w (some d) = some w) ∧
    (w.playerMoveTo = none → ∀ np te tile,
      fromI32Pair ((w.playerPos.x : Int) + (dirVec d).1)
        ((w.playerPos.y : Int) + (dirVec d).2) w.size = some np →
      w.storage np = some te → w.tiles te = some tile →
      tile.terrain = TileTerrain.Impassable →
      move_player w (some d) = some w) := by
  refine ⟨?_, ?_, ?_⟩
  · intro m hm
    simp [move_player, hm]
  · intro hIdle hoob
    simp [move_player, hIdle, hoob]
  · intro hIdle np te tile hpos hst ht hterr
    simp [move_player, hIdle, hpos, hst, ht, hterr]

/-- Witness for C9: the three no-op cases on concrete worlds: an already
moving player, a westward request off the map edge, and an eastward
request against an `Impassable` tile. -/
theorem move_player_misuse_witness :
    move_player movingWorld (some MoveDir.east) = some movingWorld ∧
    move_player digWorld (some MoveDir.west) = some digWorld ∧
    move_player wallWorld (some MoveDir.east) = some wallWorld :=
  ⟨(move_player_misuse movingWorld MoveDir.east).1 (MoveTo.new ⟨1, 0⟩ (1/2)) rfl,
   (move_player_misuse digWorld MoveDir.west).2.1 rfl (by decide),
   (move_player_misuse wallWorld MoveDir.east).2.2 rfl ⟨1, 0⟩ 2
     ⟨"rock", .Impassable, .Single 2, 2, ⟨1, 0⟩, 0, false, none⟩ (by decide) rfl rfl rfl⟩

/-- A successful `create_bundle` yields a tile named by the definition,
at the requested position and tilemap, with the requested visibility and
no digging state. -/
theorem create_bundle_fields (info : String → Option TileData) (name : String) (pos : TilePos)
    (tid : Nat) (vis : Bool) (gt : Tile)
    (h : create_bundle info name pos tid vis = some gt) :
    gt.ttype = name ∧ gt.pos = pos ∧ gt.tilemapId = tid ∧ gt.visible = vis ∧ gt.digging = none := by
  rcases h0 : info name with _ | d
  · simp [create_bundle, h0] at h
  · simp only [create_bundle, h0, Option.some.injEq] at h
    subst h
    exact ⟨rfl, rfl, rfl, rfl, rfl⟩

/-- C6: each tick adds the delta to a digging tile's timer; the tile is
replaced exactly when the accumulated elapsed time reaches the duration
and not before: below the duration only the timer advances (the tile is
still digging, nothing else changes), and on reaching it the digging
tile entity is removed and a fresh tile entity built from the "ground"
definition is inserted at the same `TilePos` with the same tilemap
ownership, as one store replacement. -/
theorem update_tile_digging_spec (w : World) (e : Nat) (δ : ℚ) (t : Tile) (tm : Timer)
    (ht : w.tiles e = some t) (hd : t.digging = some tm) :
    (tm.elapsed + δ < tm.duration →
      update_tile_digging_step w e δ =
        some
          { w with
            tiles := fun x =>
              if x = e then some { t with digging := some ⟨tm.elapsed + δ, tm.duration⟩ }
              else w.tiles x }) ∧
    (tm.duration ≤ tm.elapsed + δ → ∀ gt,
      create_bundle w.tileInfo "ground" t.pos t.tilemapId true = some gt →
      update_tile_digging_step w e δ =
        some
          { w with
            tiles := fun x =>
              if x = w.nextEntity then some gt
              else if x = e then none
              else w.tiles x
            storage := fun p => if p = t.pos then some w.nextEntity else w.storage p
            nextEntity := w.nextEntity + 1 }) ∧
    (tm.duration ≤ tm.elapsed + δ → e ≠ w.nextEntity → ∀ gt,
      create_bundle w.tileInfo "ground" t.pos t.tilemapId true = some gt →
      ∃ w', update_tile_digging_step w e δ = some w' ∧
        w'.tiles e = none ∧
        w'.tiles w.nextEntity = some gt ∧
        gt.ttype = "ground" ∧ gt.pos = t.pos ∧ gt.tilemapId = t.tilemapId ∧
        w'.storage t.pos = some w.nextEntity ∧
        (∀ p, p ≠ t.pos → w'.storage p = w.storage p)) := by
  refine ⟨?_, ?_, ?_⟩
  · intro hc
    have htick : tm.tick δ = ⟨tm.elapsed + δ, tm.duration⟩ := by
      rw [Timer.tick]
      simp [min_eq_left (le_of_lt hc)]
    have hfin : Timer.finished ⟨tm.elapsed + δ, tm.duration⟩ = false := by
      show decide (tm.duration ≤ tm.elapsed + δ) = false
      exact decide_eq_false (not_le.mpr hc)
    simp [update_tile_digging_step, ht, hd, htick, hfin]
  · intro hc gt hgt
    have hfin : (tm.tick δ).finished = true := by
      show decide (tm.duration ≤ min (tm.elapsed + δ) tm.duration) = true
      exact decide_eq_true (le_min hc (le_refl _))
    simp [update_tile_digging_step, ht, hd, hfin, hgt]
  · intro hc hne gt hgt
    have hfin : (tm.tick δ).finished = true := by
      show decide (tm.duration ≤ min (tm.elapsed + δ) tm.duration) = true
      exact decide_eq_true (le_min hc (le_refl _))
    have hfields := create_bundle_fields w.tileInfo "ground" t.pos t.tilemapId true gt hgt
    have heq : update_tile_digging_step w e δ =
        some
          { w with
            tiles := fun x =>
              if x = w.nextEntity then some gt
              else if x = e then none
              else w.tiles x
            storage := fun p => if p = t.pos then some w.nextEntity else w.storage p
            nextEntity := w.nextEntity + 1 } := by
      simp [update_tile_digging_step, ht, hd, hfin, hgt]
    refine ⟨_, heq, ?_, ?_, hfields.1, hfields.2.1, hfields.2.2.1, ?_, ?_⟩
    · simp [hne]
    · simp
    · simp
    · intro p hp
      simp [hp]

/-- Witness for C6: the duration-1 dig in `diggingWorld` is still
digging after 0.999 elapsed (timer advanced, tile entity intact), and at
accumulated elapsed 1.0 the digging entity 2 is gone, entity 3 holds the
"ground" bundle at (1,0) and the store cell (1,0) now points to 3. -/
theorem update_tile_digging_spec_witness :
    Option.bind (update_tile_digging_step diggingWorld 2 (999/1000))
      (fun w => (w.tiles 2).bind Tile.digging) = some ⟨999/1000, 1⟩ ∧
    Option.bind (update_tile_digging_step diggingWorld999 2 (1/1000))
      (fun w => w.tiles 2) = none ∧
    Option.bind (update_tile_digging_step diggingWorld999 2 (1/1000))
      (fun w => w.tiles 3) = some ⟨"ground", .Walkable, .Single 16, 16, ⟨1, 0⟩, 0, true, none⟩ ∧
    Option.bind (update_tile_digging_step diggingWorld999 2 (1/1000))
      (fun w => w.storage ⟨1, 0⟩) = some 3 := by
  have h1 := (update_tile_digging_spec diggingWorld 2 (999/1000)
    ⟨"ice", .Diggable 1 1, .Directional 0, 0, ⟨1, 0⟩, 0, false, some ⟨0, 1⟩⟩ ⟨0, 1⟩
    rfl rfl).1 (by norm_num)
  have h2 := (update_tile_digging_spec diggingWorld999 2 (1/1000)
    ⟨"ice", .Diggable 1 1, .Directional 0, 0, ⟨1, 0⟩, 0, false, some ⟨999/1000, 1⟩⟩ ⟨999/1000, 1⟩
    rfl rfl).2.1 (by norm_num)
    ⟨"ground", .Walkable, .Single 16, 16, ⟨1, 0⟩, 0, true, none⟩ rfl
  rw [h1, h2]
  refine ⟨?_, ?_, ?_, ?_⟩
  · norm_num
  · norm_num [diggingWorld999, diggingWorld, digWorld]
  · norm_num [diggingWorld999, diggingWorld, digWorld]
  · norm_num [diggingWorld999, diggingWorld, digWorld]

/-- For a direction whose bit is defined (the four orthogonal ones),
the neighbour-loop contribution matches its pure value whenever every
stored neighbour entity is live. -/
theorem neighborMaskBit_eq (w : World) (myType : String) (pos : TilePos) (d : SquareDirection)
    (hlive : ∀ np ne, w.storage np = some ne → (w.tiles ne).isSome)
    (hd : (get_direction_bit d).isSome) :
    neighborMaskBit w myType pos d = some (codeBit w myType pos d) := by
  unfold neighborMaskBit codeBit
  cases hnp : squareNeighborPos w.size pos d with
  | none => rfl
  | some np =>
    cases hne : w.storage np with
    | none => simp [hne]
    | some ne =>
      have hl := hlive np ne hne
      cases hti : w.tiles ne with
      | none => rw [hti] at hl; simp at hl
      | some nt =>
        cases hb : get_direction_bit d with
        | none => rw [hb] at hd; simp at hd
        | some bit => simp [hne, hti, hb]

/-- Under liveness of stored neighbours, `update_tile`'s monadic mask
computation returns exactly the pure mask. -/
theorem computeMask_eq (w : World) (myType : String) (pos : TilePos)
    (hlive : ∀ np ne, w.storage np = some ne → (w.tiles ne).isSome) :
    computeMask w myType pos = some (codeNeighborMask w myType pos) := by
  have hN := neighborMaskBit_eq w myType pos .North hlive (by decide)
  have hE := neighborMaskBit_eq w myType pos .East hlive (by decide)
  have hS := neighborMaskBit_eq w myType pos .South hlive (by decide)
  have hW := neighborMaskBit_eq w myType pos .West hlive (by decide)
  unfold computeMask
  rw [hN, hE, hS, hW]
  simp [codeNeighborMask, orthogonalDirs]
  ring

/-- C2 (amended): for a tile with a `Directional` texture (with every
stored neighbour entity live), `update_tile` sets the displayed texture
index to `base_index + offset(mask)` where the mask has a direction's
bit set iff the orthogonal neighbour at that direction exists (in bounds
and occupied) and its `TileType` differs from the subject's — an absent
neighbour contributes no bit.  A tile all four of whose existing
orthogonal neighbours differ yields mask 15; one identical to all four
yields mask 0. -/
theorem update_tile_spec (w : World) (pos : TilePos) (e : Nat) (tile : Tile) (start : Nat)
    (hst : w.storage pos = some e) (ht : w.tiles e = some tile)
    (htex : tile.texture = .Directional start)
    (hlive : ∀ np ne, w.storage np = some ne → (w.tiles ne).isSome) :
    update_tile w pos =
      some
        { w with
          tiles := fun x =>
            if x = e then
              some { tile with
                texIndex := start + map_bitmask_to_offset (codeNeighborMask w tile.ttype pos) }
            else w.tiles x } ∧
    ((∀ d ∈ orthogonalDirs, ∃ np ne nt, squareNeighborPos w.size pos d = some np ∧
        w.storage np = some ne ∧ w.tiles ne = some nt ∧ nt.ttype ≠ tile.ttype) →
      codeNeighborMask w tile.ttype pos = 15) ∧
    ((∀ d ∈ orthogonalDirs, ∃ np ne nt, squareNeighborPos w.size pos d = some np ∧
        w.storage np = some ne ∧ w.tiles ne = some nt ∧ nt.ttype = tile.ttype) →
      codeNeighborMask w tile.ttype pos = 0) := by
  refine ⟨?_, ?_, ?_⟩
  · simp [update_tile, hst, ht, htex, computeMask_eq w tile.ttype pos hlive]
  · intro h
    obtain ⟨npN, neN, ntN, hN1, hN2, hN3, hN4⟩ := h .North (by decide)
    obtain ⟨npE, neE, ntE, hE1, hE2, hE3, hE4⟩ := h .East (by decide)
    obtain ⟨npS, neS, ntS, hS1, hS2, hS3, hS4⟩ := h .South (by decide)
    obtain ⟨npW, neW, ntW, hW1, hW2, hW3, hW4⟩ := h .West (by decide)
    have bN : codeBit w tile.ttype pos .North = 1 := by
      simp only [codeBit, hN1, hN2, hN3]
      simp [hN4, get_direction_bit]
    have bE : codeBit w tile.ttype pos .East = 2 := by
      simp only [codeBit, hE1, hE2, hE3]
      simp [hE4, get_direction_bit]
    have bS : codeBit w tile.ttype pos .South = 4 := by
      simp only [codeBit, hS1, hS2, hS3]
      simp [hS4, get_direction_bit]
    have bW : codeBit w tile.ttype pos .West = 8 := by
      simp only [codeBit, hW1, hW2, hW3]
      simp [hW4, get_direction_bit]
    simp [codeNeighborMask, orthogonalDirs, bN, bE, bS, bW]
  · intro h
    obtain ⟨npN, neN, ntN, hN1, hN2, hN3, hN4⟩ := h .North (by decide)
    obtain ⟨npE, neE, ntE, hE1, hE2, hE3, hE4⟩ := h .East (by decide)
    obtain ⟨npS, neS, ntS, hS1, hS2, hS3, hS4⟩ := h .South (by decide)
    obtain ⟨npW, neW, ntW, hW1, hW2, hW3, hW4⟩ := h .West (by decide)
    have bN : codeBit w tile.ttype pos .North = 0 := by
      simp only [codeBit, hN1, hN2, hN3]
      simp [hN4]
    have bE : codeBit w tile.ttype pos .East = 0 := by
      simp only [codeBit, hE1, hE2, hE3]
      simp [hE4]
    have bS : codeBit w tile.ttype pos .South = 0 := by
      simp only [codeBit, hS1, hS2, hS3]
      simp [hS4]
    have bW : codeBit w tile.ttype pos .West = 0 := by
      simp only [codeBit, hW1, hW2, hW3]
      simp [hW4]
    simp [codeNeighborMask, orthogonalDirs, bN, bE, bS, bW]

/-- Witness for C2 (amended): in `digWorld` the directional "ice" tile
at (1,0) has one existing neighbour (the differing "ground" tile to the
west) and two absent ones (east/north/south are off the map); its mask
is the west bit 8 alone and its index becomes `0 + offset(8) = 5`. -/
theorem update_tile_spec_witness :
    Option.bind (update_tile digWorld ⟨1, 0⟩) (fun w => (w.tiles 2).map Tile.texIndex) =
      some (0 + map_bitmask_to_offset (codeNeighborMask digWorld "ice" ⟨1, 0⟩)) ∧
    codeNeighborMask digWorld "ice" ⟨1, 0⟩ = 8 ∧
    map_bitmask_to_offset 8 = 5 := by
  have hlive : ∀ np ne, digWorld.storage np = some ne → (digWorld.tiles ne).isSome := by
    intro np ne h
    by_cases h0 : np = ⟨0, 0⟩
    · subst h0
      simp [digWorld] at h
      subst h
      simp [digWorld]
    · by_cases h1 : np = ⟨1, 0⟩
      · subst h1
        simp [digWorld] at h
        subst h
        simp [digWorld]
      · simp [digWorld, h0, h1] at h
  have h := (update_tile_spec digWorld ⟨1, 0⟩ 2
    ⟨"ice", .Diggable 1 1, .Directional 0, 0, ⟨1, 0⟩, 0, false, none⟩ 0
    rfl rfl rfl hlive).1
  rw [h]
  exact ⟨by simp, by decide, by decide⟩

/-- C2 counterexample: on a 1x1 map the single directional "ice" tile
(base index 3) has all four orthogonal neighbours absent; the code
computes mask 0 and displays index 3, whereas the claimed rule (absent
neighbours set their bit) gives mask 15 and would display index 4. -/
theorem update_tile_cex :
    Option.bind (update_tile oneTileWorld ⟨0, 0⟩) (fun w => (w.tiles 1).map Tile.texIndex) =
      some 3 ∧
    specNeighborMask oneTileWorld "ice" ⟨0, 0⟩ = 15 ∧
    3 + map_bitmask_to_offset (specNeighborMask oneTileWorld "ice" ⟨0, 0⟩) = 4 ∧
    (3 : Nat) ≠ 4 := by
  decide

/-- `squareNeighborPos` only produces in-bounds positions. -/
theorem squareNeighborPos_inBounds (size : TilemapSize) (p : TilePos) (d : SquareDirection)
    (np : TilePos) (h : squareNeighborPos size p d = some np) :
    np.x < size.x ∧ np.y < size.y := by
  unfold squareNeighborPos fromI32Pair at h
  split_ifs at h with hc
  · obtain ⟨h1, h2, h3, h4⟩ := hc
    injection h with h
    subst h
    constructor
    · show ((p.x : Int) + (dirOffset d).1).toNat < size.x
      omega
    · show ((p.y : Int) + (dirOffset d).2).toNat < size.y
      omega

/-- The neighbour loop of `update_visibility` succeeds whenever every
cell named by a direction of the list is occupied by a live entity, and
it changes nothing but the `visible` flag of those neighbours: every
entity is either untouched or rewritten to its `visible := vis` copy,
and every neighbour named by the list ends visible-`vis`. -/
theorem reveal_fold_spec (size : TilemapSize) (pos : TilePos) (vis : Bool)
    (l : List SquareDirection) :
    ∀ (acc : World),
      (∀ np ne, acc.storage np = some ne → (acc.tiles ne).isSome) →
      (∀ d ∈ l, ∀ np, squareNeighborPos size pos d = some np → (acc.storage np).isSome) →
      ∃ w', reveal_fold size pos vis l acc = some w' ∧
        w'.storage = acc.storage ∧
        w'.size = acc.size ∧
        w'.nextEntity = acc.nextEntity ∧
        w'.playerPos = acc.playerPos ∧
        w'.playerMoveTo = acc.playerMoveTo ∧
        (∀ x, w'.tiles x = acc.tiles x ∨
          ∃ ot, acc.tiles x = some ot ∧ w'.tiles x = some { ot with visible := vis }) ∧
        (∀ d ∈ l, ∀ np ne, squareNeighborPos size pos d = some np →
          acc.storage np = some ne → ∃ nt, w'.tiles ne = some nt ∧ nt.visible = vis) := by
  induction l with
  | nil =>
    intro acc _ _
    exact ⟨acc, rfl, rfl, rfl, rfl, rfl, rfl, fun x => Or.inl rfl,
      fun d hd => absurd hd (List.not_mem_nil d)⟩
  | cons d ds ih =>
    intro acc hlive hocc
    cases hnp : squareNeighborPos size pos d with
    | none =>
      obtain ⟨w', hw, hst, hsz, hnx, hpp, hpm, hmk, hrest⟩ :=
        ih acc hlive (fun d2 hd2 np h => hocc d2 (List.mem_cons_of_mem d hd2) np h)
      refine ⟨w', ?_, hst, hsz, hnx, hpp, hpm, hmk, ?_⟩
      · rw [reveal_fold, hnp]
        exact hw
      · intro d2 hd2 np ne h1 h2
        rcases List.mem_cons.mp hd2 with rfl | hd2
        · rw [hnp] at h1
          cases h1
        · exact hrest d2 hd2 np ne h1 h2
    | some np =>
      have hocc0 := hocc d (List.mem_cons_self d ds) np hnp
      obtain ⟨ne, hne⟩ := Option.isSome_iff_exists.mp hocc0
      have hl := hlive np ne hne
      obtain ⟨nt, hnt⟩ := Option.isSome_iff_exists.mp hl
      set acc2 : World :=
        { acc with tiles := fun x =>
            if x = ne then some { nt with visible := vis } else acc.tiles x } with hacc2
      have hacc2tiles : ∀ x, acc2.tiles x =
          if x = ne then some { nt with visible := vis } else acc.tiles x := fun x => rfl
      have hacc2ne : acc2.tiles ne = some { nt with visible := vis } := by
        rw [hacc2tiles, if_pos rfl]
      have hlive2 : ∀ np2 ne2, acc2.storage np2 = some ne2 → (acc2.tiles ne2).isSome := by
        intro np2 ne2 h
        rw [hacc2tiles]
        by_cases he : ne2 = ne
        · simp [he]
        · rw [if_neg he]
          exact hlive np2 ne2 h
      obtain ⟨w', hw, hst, hsz, hnx, hpp, hpm, hmk, hrest⟩ :=
        ih acc2 hlive2 (fun d2 hd2 np2 h => hocc d2 (List.mem_cons_of_mem d hd2) np2 h)
      have hmkne : w'.tiles ne = some { nt with visible := vis } := by
        rcases hmk ne with h | ⟨ot, hot, hw2⟩
        · rw [h]
          exact hacc2ne
        · rw [hacc2ne] at hot
          injection hot with hot
          subst hot
          exact hw2
      refine ⟨w', ?_, hst, hsz, hnx, hpp, hpm, ?_, ?_⟩
      · simp only [reveal_fold, hnp, hne, hnt]
        exact hw
      · intro x
        by_cases he : x = ne
        · subst he
          exact Or.inr ⟨nt, hnt, hmkne⟩
        · rcases hmk x with h | ⟨ot, hot, hw2⟩
          · left
            rw [h, hacc2tiles, if_neg he]
          · rw [hacc2tiles, if_neg he] at hot
            exact Or.inr ⟨ot, hot, hw2⟩
      · intro d2 hd2 np2 ne2 h1 h2
        rcases List.mem_cons.mp hd2 with rfl | hd2
        · rw [hnp] at h1
          injection h1 with h1
          subst h1
          rw [hne] at h2
          injection h2 with h2
          subst h2
          exact ⟨{ nt with visible := vis }, hmkne, rfl⟩
        · exact hrest d2 hd2 np2 ne2 h1 h2

/-- C8: when a `Walkable` tile's visibility is true (on its change-query
tick), all of its up-to-8 orthogonal-and-diagonal neighbours are marked
visible too, without touching the storage; and the propagation is
one-directional: an invisible tile propagates nothing (the world is
returned unchanged). -/
theorem update_visibility_reveal :
    (∀ w e t, w.tiles e = some t → t.visible = true → t.terrain = TileTerrain.Walkable →
      (∀ np ne, w.storage np = some ne → (w.tiles ne).isSome) →
      (∀ d ∈ allDirs, ∀ np, squareNeighborPos w.size t.pos d = some np →
        (w.storage np).isSome) →
      ∃ w', update_visibility_step w e = some w' ∧
        w'.storage = w.storage ∧
        (∀ d ∈ allDirs, ∀ np ne, squareNeighborPos w.size t.pos d = some np →
          w.storage np = some ne → ∃ nt, w'.tiles ne = some nt ∧ nt.visible = true)) ∧
    (∀ w e t, w.tiles e = some t → t.visible = false →
      update_visibility_step w e = some w) := by
  constructor
  · intro w e t ht hv hter hlive hocc
    obtain ⟨w', hw, hst, _, _, _, _, _, hrest⟩ :=
      reveal_fold_spec w.size t.pos t.visible allDirs w hlive hocc
    refine ⟨w', ?_, hst, ?_⟩
    · simp only [update_visibility_step, ht, if_pos (And.intro hv hter)]
      exact hw
    · intro d hd np ne h1 h2
      obtain ⟨nt, hnt, hntv⟩ := hrest d hd np ne h1 h2
      exact ⟨nt, hnt, hv ▸ hntv⟩
  · intro w e t ht hv
    have hng : ¬(t.visible = true ∧ t.terrain = TileTerrain.Walkable) := by
      intro hc
      rw [hv] at hc
      exact absurd hc.1 (by simp)
    simp only [update_visibility_step, ht, if_neg hng]

/-- Witness for C8: in the 5x5 `visWorld`, revealing the walkable centre
tile (2,2) (entity 13) marks all 8 surrounding tiles (entities 7, 8, 9,
12, 14, 17, 18, 19) visible; running the same update on the invisible
tile (0,0) (entity 1) changes nothing. -/
theorem update_visibility_reveal_witness :
    Option.bind (update_visibility_step visWorld 13) (fun w => (w.tiles 7).map Tile.visible)
      = some true ∧
    Option.bind (update_visibility_step visWorld 13) (fun w => (w.tiles 8).map Tile.visible)
      = some true ∧
    Option.bind (update_visibility_step visWorld 13) (fun w => (w.tiles 9).map Tile.visible)
      = some true ∧
    Option.bind (update_visibility_step visWorld 13) (fun w => (w.tiles 12).map Tile.visible)
      = some true ∧
    Option.bind (update_visibility_step visWorld 13) (fun w => (w.tiles 14).map Tile.visible)
      = some true ∧
    Option.bind (update_visibility_step visWorld 13) (fun w => (w.tiles 17).map Tile.visible)
      = some true ∧
    Option.bind (update_visibility_step visWorld 13) (fun w => (w.tiles 18).map Tile.visible)
      = some true ∧
    Option.bind (update_visibility_step visWorld 13) (fun w => (w.tiles 19).map Tile.visible)
      = some true ∧
    update_visibility_step visWorld 1 = some visWorld := by
  have hlive : ∀ np ne, visWorld.storage np = some ne → (visWorld.tiles ne).isSome := by
    intro np ne h
    by_cases hc : np.x < 5 ∧ np.y < 5
    · rw [show visWorld.storage np = some (1 + np.x + 5 * np.y) from if_pos hc] at h
      injection h with h
      subst h
      have hb : 1 ≤ 1 + np.x + 5 * np.y ∧ 1 + np.x + 5 * np.y ≤ 25 := by omega
      rw [show visWorld.tiles (1 + np.x + 5 * np.y) = some _ from if_pos hb]
      rfl
    · rw [show visWorld.storage np = none from if_neg hc] at h
      cases h
  have hocc : ∀ d ∈ allDirs, ∀ np,
      squareNeighborPos visWorld.size (⟨2, 2⟩ : TilePos) d = some np →
      (visWorld.storage np).isSome := by
    intro d _ np hnp
    have hb := squareNeighborPos_inBounds visWorld.size ⟨2, 2⟩ d np hnp
    rw [show visWorld.storage np = some (1 + np.x + 5 * np.y) from if_pos hb]
    rfl
  obtain ⟨w', hw, _, hmark⟩ := update_visibility_reveal.1 visWorld 13
    ⟨"ground", .Walkable, .Single 16, 16, ⟨2, 2⟩, 0, true, none⟩
    (by decide) rfl rfl hlive hocc
  have hget : ∀ (d : SquareDirection) (np : TilePos) (ne : Nat), d ∈ allDirs →
      squareNeighborPos visWorld.size (⟨2, 2⟩ : TilePos) d = some np →
      visWorld.storage np = some ne →
      Option.bind (update_visibility_step visWorld 13) (fun w => (w.tiles ne).map Tile.visible)
        = some true := by
    intro d np ne hd h1 h2
    obtain ⟨nt, hnt, hntv⟩ := hmark d hd np ne h1 h2
    rw [hw]
    simp [hnt, hntv]
  refine ⟨hget .SouthWest ⟨1, 1⟩ 7 (by decide) (by decide) (by decide),
          hget .South ⟨2, 1⟩ 8 (by decide) (by decide) (by decide),
          hget .SouthEast ⟨3, 1⟩ 9 (by decide) (by decide) (by decide),
          hget .West ⟨1, 2⟩ 12 (by decide) (by decide) (by decide),
          hget .East ⟨3, 2⟩ 14 (by decide) (by decide) (by decide),
          hget .NorthWest ⟨1, 3⟩ 17 (by decide) (by decide) (by decide),
          hget .North ⟨2, 3⟩ 18 (by decide) (by decide) (by decide),
          hget .NorthEast ⟨3, 3⟩ 19 (by decide) (by decide) (by decide),
          update_visibility_reveal.2 visWorld 1
            ⟨"ground", .Walkable, .Single 16, 16, ⟨0, 0⟩, 0, false, none⟩
            (by decide) rfl⟩

/-- Replacing one live entity's components without moving it (and
possibly changing the player's `MoveTo`) preserves the store invariant. -/
theorem storeInv_update (w : World) (hw : StoreInv w) (te : Nat) (t t2 : Tile)
    (mv : Option MoveTo) (ht : w.tiles te = some t) (hpos : t2.pos = t.pos) :
    StoreInv
      { w with
        tiles := fun x => if x = te then some t2 else w.tiles x
        playerMoveTo := mv } := by
  have hte : te < w.nextEntity := by
    by_contra hc
    rw [hw.fresh te (le_of_not_lt hc)] at ht
    cases ht
  refine ⟨hw.occupied, ?_, ?_⟩
  · intro p e he
    obtain ⟨t3, ht3, hp3⟩ := hw.consistent p e he
    by_cases hc : e = te
    · subst hc
      rw [ht] at ht3
      injection ht3 with ht3
      subst ht3
      exact ⟨t2, by simp, by rw [hpos, hp3]⟩
    · exact ⟨t3, by simpa [hc] using ht3, hp3⟩
  · intro e he
    have hne : e ≠ te := by
      intro hc
      subst hc
      exact absurd he (not_le.mpr hte)
    simpa [hne] using hw.fresh e he

/-- A world whose tiles are each either untouched or rewritten to a
`visible := vis` copy (storage, size, counter unchanged) keeps the store
invariant. -/
theorem storeInv_of_marking (vis : Bool) (w w2 : World) (hw : StoreInv w)
    (hsz : w2.size = w.size) (hst : w2.storage = w.storage) (hnx : w2.nextEntity = w.nextEntity)
    (hmk : ∀ x, w2.tiles x = w.tiles x ∨
      ∃ ot, w.tiles x = some ot ∧ w2.tiles x = some { ot with visible := vis }) :
    StoreInv w2 := by
  refine ⟨?_, ?_, ?_⟩
  · intro p hp
    rw [hst]
    exact hw.occupied p (by rwa [hsz] at hp)
  · intro p e he
    rw [hst] at he
    obtain ⟨t, ht, hpt⟩ := hw.consistent p e he
    rcases hmk e with h | ⟨ot, hot, h2⟩
    · exact ⟨t, by rwa [h], hpt⟩
    · rw [ht] at hot
      injection hot with hot
      subst hot
      exact ⟨{ t with visible := vis }, h2, hpt⟩
  · intro e he
    rw [hnx] at he
    rcases hmk e with h | ⟨ot, hot, _⟩
    · rw [h]
      exact hw.fresh e he
    · rw [hw.fresh e he] at hot
      cases hot

/-- One spawn of the generation loops: when it succeeds it preserves
consistency and freshness, keeps the size and registry, never empties a
cell, and fills the spawned cell. -/
theorem spawnTile_inv (w w1 : World) (name : String) (pos : TilePos) (vis : Bool)
    (h : spawnTile w name pos vis = some w1)
    (hcons : ∀ p e, w.storage p = some e → ∃ t, w.tiles e = some t ∧ t.pos = p)
    (hfresh : ∀ e, w.nextEntity ≤ e → w.tiles e = none) :
    (∀ p e, w1.storage p = some e → ∃ t, w1.tiles e = some t ∧ t.pos = p) ∧
    (∀ e, w1.nextEntity ≤ e → w1.tiles e = none) ∧
    w1.size = w.size ∧ w1.tileInfo = w.tileInfo ∧
    (∀ p, (w.storage p).isSome → (w1.storage p).isSome) ∧
    (w1.storage pos).isSome := by
  cases hcb : create_bundle w.tileInfo name pos 0 vis with
  | none =>
    rw [spawnTile, hcb] at h
    cases h
  | some t =>
    rw [spawnTile, hcb] at h
    injection h with h
    subst h
    have hfields := create_bundle_fields w.tileInfo name pos 0 vis t hcb
    refine ⟨?_, ?_, rfl, rfl, ?_, ?_⟩
    · intro p e he
      by_cases hp : p = pos
      · subst hp
        simp only [if_pos rfl] at he
        injection he with he
        subst he
        exact ⟨t, by simp, hfields.2.1⟩
      · simp only [if_neg hp] at he
        obtain ⟨t3, ht3, hp3⟩ := hcons p e he
        have hlt : e < w.nextEntity := by
          by_contra hc
          rw [hfresh e (le_of_not_lt hc)] at ht3
          cases ht3
        exact ⟨t3, by simpa [Nat.ne_of_lt hlt] using ht3, hp3⟩
    · intro e he
      have he2 : w.nextEntity + 1 ≤ e := he
      have hne : e ≠ w.nextEntity := by omega
      simpa [hne] using hfresh e (by omega)
    · intro p hp
      by_cases hq : p = pos
      · simp [hq]
      · simpa [hq] using hp
    · simp

/-- The generation loops: when the fold of spawns succeeds it preserves
consistency and freshness, keeps the size, never empties a cell, and
fills every cell it visits. -/
theorem spawnFold_inv (name : String) (vis : Bool) (l : List TilePos) :
    ∀ (w w2 : World),
      l.foldlM (fun w p => spawnTile w name p vis) w = some w2 →
      (∀ p e, w.storage p = some e → ∃ t, w.tiles e = some t ∧ t.pos = p) →
      (∀ e, w.nextEntity ≤ e → w.tiles e = none) →
      (∀ p e, w2.storage p = some e → ∃ t, w2.tiles e = some t ∧ t.pos = p) ∧
      (∀ e, w2.nextEntity ≤ e → w2.tiles e = none) ∧
      w2.size = w.size ∧
      (∀ p, (w.storage p).isSome → (w2.storage p).isSome) ∧
      (∀ p, p ∈ l → (w2.storage p).isSome) := by
  induction l with
  | nil =>
    intro w w2 h hcons hfresh
    rw [List.foldlM_nil] at h
    injection h with h
    subst h
    exact ⟨hcons, hfresh, rfl, fun p hp => hp, fun p hp => absurd hp (List.not_mem_nil p)⟩
  | cons q qs ih =>
    intro w w2 h hcons hfresh
    rw [List.foldlM_cons] at h
    cases hsp : spawnTile w name q vis with
    | none =>
      rw [hsp] at h
      cases h
    | some w1 =>
      rw [hsp] at h
      simp only [Option.bind_eq_bind, Option.some_bind] at h
      obtain ⟨hcons1, hfresh1, hsz1, _hinfo1, hmono1, hq1⟩ :=
        spawnTile_inv w w1 name q vis hsp hcons hfresh
      obtain ⟨hcons2, hfresh2, hsz2, hmono2, hl2⟩ := ih w1 w2 h hcons1 hfresh1
      refine ⟨hcons2, hfresh2, hsz2.trans hsz1, fun p hp => hmono2 p (hmono1 p hp), ?_⟩
      intro p hp
      rcases List.mem_cons.mp hp with rfl | hp
      · exact hmono2 p hq1
      · exact hl2 p hp

/-- Every in-bounds position is visited by the main generation loop. -/
theorem mem_gridPositions (width height : Nat) (p : TilePos) :
    p ∈ gridPositions width height ↔ p.x < width ∧ p.y < height := by
  cases p with
  | mk x y =>
    simp only [gridPositions, List.mem_flatMap, List.mem_map, List.mem_range]
    constructor
    · rintro ⟨a, ha, b, hb, he⟩
      injection he with h1 h2
      subst h1
      subst h2
      exact ⟨ha, hb⟩
    · rintro ⟨hx, hy⟩
      exact ⟨x, hx, y, hy, rfl⟩

set_option maxHeartbeats 1000000 in
/-- C10: the tile-store invariant: after `create_map` (on a map at least
3x3, so that the centre loops stay in bounds) every in-bounds coordinate
is occupied by a live tile entity sitting at that coordinate; the
digging replacement, movement requests, auto-tiling and visibility
updates all preserve the invariant; and under it each entity is stored
at at most one position, so every `TilePos` maps to at most one live
tile entity in the store. -/
theorem tile_store_invariant :
    (∀ settings info w, 3 ≤ settings.size.1 → 3 ≤ settings.size.2 →
      create_map settings info = some w → StoreInv w) ∧
    (∀ w e δ w2, StoreInv w → update_tile_digging_step w e δ = some w2 → StoreInv w2) ∧
    (∀ w input w2, StoreInv w → move_player w input = some w2 → StoreInv w2) ∧
    (∀ w pos w2, StoreInv w → update_tile w pos = some w2 → StoreInv w2) ∧
    (∀ w e w2, StoreInv w → update_visibility_step w e = some w2 → StoreInv w2) ∧
    (∀ w p q e, StoreInv w → w.storage p = some e → w.storage q = some e → p = q) := by
  refine ⟨?_, ?_, ?_, ?_, ?_, ?_⟩
  · -- create_map establishes the invariant
    intro settings info w _h3x _h3y h
    rw [create_map] at h
    simp only [Option.bind_eq_bind, bind, Option.bind_eq_some] at h
    obtain ⟨w1, h1, w2, h2, h3⟩ := h
    have hw2 : w2 = w := Option.some.inj h3
    rw [← hw2]
    obtain ⟨hcons1, hfresh1, hsz1, _hmono1, hgrid1⟩ :=
      spawnFold_inv "ice" false (gridPositions settings.size.1 settings.size.2) _ w1 h1
        (fun p e he => by cases he) (fun e _ => rfl)
    obtain ⟨hcons2, hfresh2, hsz2, hmono2, _⟩ :=
      spawnFold_inv "ground" true (centerPositions settings.size) w1 w2 h2 hcons1 hfresh1
    refine ⟨?_, hcons2, hfresh2⟩
    intro p hp
    have hpin : p ∈ gridPositions settings.size.1 settings.size.2 := by
      rw [mem_gridPositions]
      have hsz : w2.size = TilemapSize.mk settings.size.1 settings.size.2 := by
        rw [hsz2, hsz1]
      rw [hsz] at hp
      exact hp
    exact hmono2 p (hgrid1 p hpin)
  · -- digging replacement preserves the invariant
    intro w e δ w2 hw h
    cases ht : w.tiles e with
    | none =>
      rw [update_tile_digging_step, ht] at h
      injection h with h
      subst h
      exact hw
    | some t =>
      cases hd : t.digging with
      | none =>
        rw [update_tile_digging_step, ht] at h
        simp only [hd] at h
        injection h with h
        subst h
        exact hw
      | some tm =>
        rw [update_tile_digging_step, ht] at h
        simp only [hd] at h
        by_cases hfin : (tm.tick δ).finished = true
        · rw [if_pos hfin] at h
          cases hcb : create_bundle w.tileInfo "ground" t.pos t.tilemapId true with
          | none =>
            rw [hcb] at h
            cases h
          | some gt =>
            rw [hcb] at h
            injection h with h
            subst h
            have hfields := create_bundle_fields w.tileInfo "ground" t.pos t.tilemapId true gt hcb
            have hte : e < w.nextEntity := by
              by_contra hc
              rw [hw.fresh e (le_of_not_lt hc)] at ht
              cases ht
            refine ⟨?_, ?_, ?_⟩
            · intro p hp
              by_cases hq : p = t.pos
              · simp [hq]
              · simpa [hq] using hw.occupied p hp
            · intro p e2 he2
              by_cases hq : p = t.pos
              · subst hq
                simp only [if_pos rfl] at he2
                injection he2 with he2
                subst he2
                exact ⟨gt, by simp, hfields.2.1⟩
              · simp only [if_neg hq] at he2
                obtain ⟨t3, ht3, hp3⟩ := hw.consistent p e2 he2
                have hne2 : e2 ≠ w.nextEntity := by
                  intro hc
                  subst hc
                  rw [hw.fresh _ (le_refl _)] at ht3
                  cases ht3
                have hnee : e2 ≠ e := by
                  intro hc
                  subst hc
                  rw [ht] at ht3
                  injection ht3 with ht3
                  subst ht3
                  exact hq hp3.symm
                exact ⟨t3, by simpa [hne2, hnee] using ht3, hp3⟩
            · intro e2 he2
              have he2b : w.nextEntity + 1 ≤ e2 := he2
              have h1 : e2 ≠ w.nextEntity := by omega
              have h2 : e2 ≠ e := by omega
              simpa [h1, h2] using hw.fresh e2 (by omega)
        · rw [if_neg hfin] at h
          injection h with h
          subst h
          exact storeInv_update w hw e t { t with digging := some (tm.tick δ) }
            w.playerMoveTo ht rfl
  · -- movement requests preserve the invariant
    intro w input w2 hw h
    cases hmv : w.playerMoveTo with
    | some m =>
      simp only [move_player, hmv] at h
      have hs := Option.some.inj h
      subst hs
      exact hw
    | none =>
      cases input with
      | none =>
        simp only [move_player, hmv] at h
        have hs := Option.some.inj h
        subst hs
        exact hw
      | some dir =>
        cases hfp : fromI32Pair ((w.playerPos.x : Int) + (dirVec dir).1)
            ((w.playerPos.y : Int) + (dirVec dir).2) w.size with
        | none =>
          simp only [move_player, hmv, hfp] at h
          have hs := Option.some.inj h
          subst hs
          exact hw
        | some np =>
          cases hst : w.storage np with
          | none =>
            simp only [move_player, hmv, hfp, hst] at h
            exact Option.noConfusion h
          | some te =>
            cases ht : w.tiles te with
            | none =>
              simp only [move_player, hmv, hfp, hst, ht] at h
              exact Option.noConfusion h
            | some tile =>
              cases hterr : tile.terrain with
              | Walkable =>
                simp only [move_player, hmv, hfp, hst, ht, hterr] at h
                have hs := Option.some.inj h
                subst hs
                exact ⟨hw.occupied, hw.consistent, hw.fresh⟩
              | Diggable level hardness =>
                simp only [move_player, hmv, hfp, hst, ht, hterr] at h
                have hs := Option.some.inj h
                subst hs
                exact storeInv_update w hw te tile _ _ ht rfl
              | Impassable =>
                simp only [move_player, hmv, hfp, hst, ht, hterr] at h
                have hs := Option.some.inj h
                subst hs
                exact hw
  · -- auto-tiling preserves the invariant
    intro w pos w2 hw h
    cases hst : w.storage pos with
    | none =>
      simp only [update_tile, hst] at h
      exact Option.noConfusion h
    | some e =>
      cases ht : w.tiles e with
      | none =>
        simp only [update_tile, hst, ht] at h
        exact Option.noConfusion h
      | some tile =>
        cases htex : tile.texture with
        | Single ind =>
          simp only [update_tile, hst, ht, htex] at h
          have hs := Option.some.inj h
          subst hs
          exact hw
        | Directional start =>
          cases hm : computeMask w tile.ttype pos with
          | none =>
            simp only [update_tile, hst, ht, htex, hm] at h
            exact Option.noConfusion h
          | some mask =>
            simp only [update_tile, hst, ht, htex, hm] at h
            have hs := Option.some.inj h
            subst hs
            exact storeInv_update w hw e tile _ w.playerMoveTo ht rfl
  · -- visibility propagation preserves the invariant
    intro w e w2 hw h
    cases ht : w.tiles e with
    | none =>
      rw [update_visibility_step, ht] at h
      injection h with h
      subst h
      exact hw
    | some t =>
      by_cases hc : t.visible = true ∧ t.terrain = TileTerrain.Walkable
      · simp only [update_visibility_step, ht, if_pos hc] at h
        have hlive : ∀ np ne, w.storage np = some ne → (w.tiles ne).isSome := by
          intro np ne hne
          obtain ⟨t3, ht3, _⟩ := hw.consistent np ne hne
          simp [ht3]
        have hocc : ∀ d ∈ allDirs, ∀ np, squareNeighborPos w.size t.pos d = some np →
            (w.storage np).isSome := by
          intro d _ np hnp
          exact hw.occupied np (squareNeighborPos_inBounds w.size t.pos d np hnp)
        obtain ⟨w3, hw3, hst3, hsz3, hnx3, _, _, hmk3, _⟩ :=
          reveal_fold_spec w.size t.pos t.visible allDirs w hlive hocc
        rw [hw3] at h
        injection h with h
        subst h
        exact storeInv_of_marking t.visible w w3 hw hsz3 hst3 hnx3 hmk3
      · simp only [update_visibility_step, ht, if_neg hc] at h
        injection h with h
        subst h
        exact hw
  · -- at most one stored position per entity
    intro w p q e hw hp hq
    obtain ⟨t1, ht1, hp1⟩ := hw.consistent p e hp
    obtain ⟨t2, ht2, hp2⟩ := hw.consistent q e hq
    rw [ht1] at ht2
    injection ht2 with ht2
    subst ht2
    rw [← hp1, ← hp2]

/-- Witness for C10: the generated 3x3 world `mapW` satisfies the store
invariant, and a digging tick on its (non-digging) entity 5 leaves it
unchanged and invariant-preserving. -/
theorem tile_store_invariant_witness :
    StoreInv mapW ∧ update_tile_digging_step mapW 5 (1/2) = some mapW := by
  have h1 := tile_store_invariant.1 ⟨(3, 3), 16⟩ infoC mapW (by norm_num) (by norm_num) rfl
  have hstep : update_tile_digging_step mapW 5 (1/2) = some mapW := rfl
  exact ⟨tile_store_invariant.2.1 mapW 5 (1/2) mapW h1 hstep, hstep⟩

end Digger
